import Mathlib

/-!
Shallow embedding of `denops/@ddu-columns/extra_filename.ts` (final version,
the one defining `lastFilenameInDir`, `gitFilenames` and `getHighlightName`).

Modelling conventions:
* JS strings are Lean `String`s; `slice`, `length` and friends, which count
  UTF-16 code units in JS, are modelled on code points (the inputs involved
  are names and status codes where the two coincide).
* `TextEncoder.encode(s).length` is `String.utf8ByteSize` (exact).
* JS `Map` (insertion ordered, unique keys) is an association list
  `List (String × α)`; `Map.set` replaces the first binding in place or
  appends, `Map.get` is the first lookup.
* External calls (`fn.strwidth`, `Deno.realPath`, the MD5 digest of the
  crypto library, the two `system` invocations of git) are fields of an
  explicit environment `Env`.
* `" ".repeat(n)` throws a `RangeError` for negative `n`; fallible code
  returns `Option`, so `getText` returns `Option GetTextResult`.
* JS arrays handed to the column by the host are modelled by a store
  (`Store`) of array objects addressed by index, so that in-place
  mutation (`Array.prototype.sort`) versus fresh allocation
  (`Array.prototype.filter`) is visible: `filter` appends a fresh slot,
  and the code only ever sorts such fresh slots.
-/

namespace ExtraFilename

/-- `ActionData` of the source: the host supplied action payload. -/
structure ActionData where
  isDirectory : Option Bool
  isLink : Option Bool
  path : Option String
deriving DecidableEq, Repr

/-- The `status` payload used by `sortBySize` / `sortByTime`. -/
structure ItemStatus where
  size : Option Int
  time : Option Int
deriving DecidableEq, Repr

/-- The attributes of a host `DduItem` that this column reads:
`word`, `action`, `isTree`, `treePath`, `__level`, `__expanded`, `status`. -/
structure DduItem where
  word : String
  action : ActionData
  isTree : Option Bool
  treePath : Option String
  level : Nat
  expanded : Bool
  status : Option ItemStatus
deriving DecidableEq, Repr

/-- `Params` of the source column. -/
structure Params where
  sort : String
  sortTreesFirst : Bool
deriving DecidableEq, Repr

/-- `IconData` of the source. -/
structure IconData where
  icon : String
  color : String
deriving DecidableEq, Repr

/-- `GitStatus` of the source. -/
structure GitStatus where
  status : Nat
  color : String
deriving DecidableEq, Repr

/-- `ItemHighlight` records pushed by `getText`. -/
structure ItemHighlight where
  name : String
  hl_group : String
  col : Int
  width : Nat
deriving DecidableEq, Repr

/-- `GetTextResult`: the text plus its highlights. -/
structure GetTextResult where
  text : String
  highlights : List ItemHighlight
deriving DecidableEq, Repr

/-- The mutable fields of the `Column` instance. -/
structure ColumnState where
  lastFilenameInDir : List (String × String)
  gitRoot : Option String
  gitFilenames : List (String × String)
  gitStatusHash : String
deriving DecidableEq, Repr

/-- The external world: vim's `strwidth`, `Deno.realPath`, the MD5 digest
(`toHashString(crypto.subtle.digestSync('MD5', bytes))`) and the outputs of
the two `system` git calls. -/
structure Env where
  strwidth : String → Int
  realPath : String → String
  md5 : String → String
  gitRootOutput : String
  gitStatusOutput : String

/-- JS `Map.get`: first binding of the key, if any. -/
def mapGet {α : Type} (m : List (String × α)) (k : String) : Option α :=
  (m.find? (fun kv => kv.1 == k)).map (fun kv => kv.2)

/-- JS `Map.set`: replace the (unique) binding of the key in place, or
append a new one. -/
def mapSet {α : Type} : List (String × α) → String → α → List (String × α)
  | [], k, v => [(k, v)]
  | (k', v') :: rest, k, v =>
    if k' == k then (k, v) :: rest else (k', v') :: mapSet rest k v

/-- Truthiness of an optional JS string: `undefined` and `""` are falsy. -/
def jsTruthyStr : Option String → Bool
  | none => false
  | some s => s ≠ ""

/-- JS `String.split` with a one-character separator (structural over the
character list; `"".split(sep)` is `[""]`). -/
def jsSplitAux (sep : Char) : List Char → List Char → List String
  | [], acc => [String.mk acc.reverse]
  | c :: cs, acc =>
    if c == sep then String.mk acc.reverse :: jsSplitAux sep cs []
    else jsSplitAux sep cs (c :: acc)

/-- JS `path.split(sep)` for a one-character separator. -/
def jsSplit (s : String) (sep : Char) : List String :=
  jsSplitAux sep s.data []

/-- JS `String.trim`: strip whitespace from both ends. -/
def jsTrim (s : String) : String :=
  String.mk (((s.data.dropWhile Char.isWhitespace).reverse.dropWhile
    Char.isWhitespace).reverse)

/-- JS `String.trimEnd`: strip trailing whitespace. -/
def jsTrimEnd (s : String) : String :=
  String.mk (s.data.reverse.dropWhile Char.isWhitespace).reverse

/-- JS `String.toLowerCase` (ASCII case mapping). -/
def jsToLower (s : String) : String :=
  String.mk (s.data.map Char.toLower)

/-- JS `String.slice(0, n)`. -/
def jsTake (s : String) (n : Nat) : String :=
  String.mk (s.data.take n)

/-- JS `String.slice(n)`. -/
def jsDrop (s : String) (n : Nat) : String :=
  String.mk (s.data.drop n)

/-- Whether the first list is an initial segment of the second. -/
def charsLead : List Char → List Char → Bool
  | [], _ => true
  | _ :: _, [] => false
  | c :: cs, d :: ds => c == d && charsLead cs ds

/-- JS `String.startsWith`. -/
def jsStartsWith (s t : String) : Bool :=
  charsLead t.data s.data

/-- Lexicographic `<` on character lists (the JS `<` on strings). -/
def charsLt : List Char → List Char → Bool
  | _, [] => false
  | [], _ :: _ => true
  | c :: cs, d :: ds =>
    if c < d then true else if d < c then false else charsLt cs ds

/-- JS `a < b` on strings: lexicographic comparison. -/
def jsStrLt (a b : String) : Bool :=
  charsLt a.data b.data

/-- `basename` of `std/path` (posix): drop trailing separators, then return
the last component; all-separator and empty inputs give `""`. -/
def jsBasename (p : String) : String :=
  let rev := p.data.reverse.dropWhile (fun c => c == '/')
  String.mk (rev.takeWhile (fun c => c != '/')).reverse

/-- `extname` of `std/path` (posix): the suffix of the last component from
its last dot, except that a leading-dot-only name (dotfile, `.`, `..`) has
no extension. Mirrors the node algorithm's `startDot`/`preDotState` rules. -/
def jsExtname (p : String) : String :=
  let base := (jsBasename p).data
  match (base.reverse.takeWhile (fun c => c != '.')).length with
  | n =>
    if n == base.length then ""
    else
      let d := base.length - 1 - n
      if d == 0 then ""
      else if base.headD ' ' == '.' && d == base.length - 1 && d == 1 then ""
      else String.mk (base.drop d)

/-- `Math.max(...xs)`: `none` models the `-Infinity` of an empty spread. -/
def jsMathMax (l : List Nat) : Option Nat :=
  match l with
  | [] => none
  | x :: xs => some (xs.foldl Nat.max x)

/-- `" ".repeat(n)` builder: `n` copies of `s`. -/
def jsRepeatAux (s : String) : Nat → String
  | 0 => ""
  | n + 1 => s ++ jsRepeatAux s n

/-- JS `String.repeat`: throws `RangeError` on a negative count. -/
def jsRepeat (s : String) (n : Int) : Option String :=
  if n < 0 then none else some (jsRepeatAux s n.toNat)

/-- Stable insertion of `x` into `l`, before the first `y` with
`cmp x y < 0`: the order produced by the (stable) JS `Array.sort`. -/
def insertCmp {α : Type} (cmp : α → α → Int) (x : α) : List α → List α
  | [] => [x]
  | y :: ys => if cmp x y < 0 then x :: y :: ys else y :: insertCmp cmp x ys

/-- JS `Array.prototype.sort` with a consistent comparator: stable sort. -/
def jsSort {α : Type} (cmp : α → α → Int) (l : List α) : List α :=
  l.foldl (fun acc x => insertCmp cmp x acc) []

/-- The store of JS array objects reachable from the entry points; the host
hands the column a reference (an index) to its `items` array. -/
abbrev Store : Type := List (List DduItem)

/-- Reading an array object from the store. -/
def storeGet (s : Store) (r : Nat) : List DduItem :=
  (s[r]?).getD []

/-- The `colors` table. -/
def colors : List (String × String) :=
  [("default", "Normal"), ("aqua", "#3AFFDB"), ("beige", "#F5C06F"),
   ("blue", "#689FB6"), ("brown", "#905532"), ("darkBlue", "#44788E"),
   ("darkOrange", "#F16529"), ("green", "#8FAA54"), ("lightGreen", "#31B53E"),
   ("lightPurple", "#834F79"), ("orange", "#D4843E"), ("pink", "#CB6F6F"),
   ("purple", "#834F79"), ("red", "#AE403F"), ("salmon", "#EE6E73"),
   ("yellow", "#F09F17")]

/-- `this.defaultFileIcon`. -/
def defaultFileIcon : IconData := { icon := "", color := "default" }

/-- The `specialIcons` table. -/
def specialIcons : List (String × IconData) :=
  [("directory_expanded", { icon := "\ue5fe", color := "green" }),
   ("directory_link", { icon := "\uf482", color := "green" }),
   ("directory", { icon := "\ue5ff", color := "green" }),
   ("link", { icon := "\uf0c1", color := "green" })]

/-- The `extensionIcons` table. -/
def extensionIcons : List (String × IconData) :=
  [("html", { icon := "\ue60e", color := "darkOrange" }),
   ("htm", { icon := "\ue60e", color := "darkOrange" }),
   ("sass", { icon := "\ue603", color := "default" }),
   ("scss", { icon := "\ue603", color := "pink" }),
   ("css", { icon := "\ue614", color := "blue" }),
   ("md", { icon := "\ue609", color := "yellow" }),
   ("markdown", { icon := "\ue609", color := "yellow" }),
   ("json", { icon := "\ue60b", color := "beige" }),
   ("js", { icon := "\ue60c", color := "beige" }),
   ("rb", { icon := "\ue791", color := "red" }),
   ("php", { icon := "\ue608", color := "purple" }),
   ("py", { icon := "\ue606", color := "yellow" }),
   ("pyc", { icon := "\ue606", color := "yellow" }),
   ("vim", { icon := "\ue62b", color := "green" }),
   ("toml", { icon := "\ue615", color := "default" }),
   ("sh", { icon := "\ue795", color := "lightPurple" }),
   ("go", { icon := "\ue627", color := "aqua" }),
   ("ts", { icon := "\ue628", color := "blue" })]

/-- The `gitStatuses` table (`statusNumbers` inlined). -/
def gitStatuses : List (String × GitStatus) :=
  [("M", { status := 7, color := "green" }),
   ("T", { status := 6, color := "yellow" }),
   ("A", { status := 5, color := "blue" }),
   ("D", { status := 8, color := "salmon" }),
   ("R", { status := 4, color := "yellow" }),
   ("C", { status := 3, color := "blue" }),
   ("U", { status := 2, color := "green" }),
   ("??", { status := 1, color := "yellow" })]

/-- `sortByFilename`. -/
def sortByFilename (a b : DduItem) : Int :=
  let nameA := a.treePath.getD a.word
  let nameB := b.treePath.getD b.word
  if jsStrLt nameA nameB then -1 else if jsStrLt nameB nameA then 1 else 0

/-- `sortByExtension`. -/
def sortByExtension (a b : DduItem) : Int :=
  let nameA := jsExtname a.word
  let nameB := jsExtname b.word
  if jsStrLt nameA nameB then -1 else if jsStrLt nameB nameA then 1 else 0

/-- `sortBySize`. -/
def sortBySize (a b : DduItem) : Int :=
  let sizeA := (a.status.bind (fun s => s.size)).getD (-1)
  let sizeB := (b.status.bind (fun s => s.size)).getD (-1)
  if sizeA < sizeB then -1 else if sizeB < sizeA then 1 else 0

/-- `sortByTime`. -/
def sortByTime (a b : DduItem) : Int :=
  let timeA := (a.status.bind (fun s => s.time)).getD (-1)
  let timeB := (b.status.bind (fun s => s.time)).getD (-1)
  if timeA < timeB then -1 else if timeB < timeA then 1 else 0

/-- `sortByNone`. -/
def sortByNone (_a _b : DduItem) : Int := 0

/-- `getHighlightName`. -/
def getHighlightName (highlightGroup : String) : String :=
  "DduColumnRichFilename_" ++ highlightGroup

/-- `getIcon`, generalized over the two lookup tables it reads (the source
closes over the global `specialIcons` / `extensionIcons`). -/
def getIconGen (special ext : List (String × IconData))
    (fileName : String) (expanded isDirectory isLink : Bool) : IconData :=
  if expanded then
    (mapGet special "directory_expanded").getD defaultFileIcon
  else if isDirectory then
    if isLink then (mapGet special "directory_link").getD defaultFileIcon
    else (mapGet special "directory").getD defaultFileIcon
  else if isLink then (mapGet special "link").getD defaultFileIcon
  else (mapGet ext ((jsExtname fileName).drop 1)).getD defaultFileIcon

/-- `getIcon` of the source, on the source's tables. -/
def getIcon (fileName : String) (expanded isDirectory isLink : Bool) : IconData :=
  getIconGen specialIcons extensionIcons fileName expanded isDirectory isLink

/-- The body of `getIndent`'s `for` loop, in iteration order: at entry of
iteration `i` the remaining components are `paths`; `parentPath` is their
join without the last, `name` the popped last; the loop breaks when `pop`
yields `undefined` (empty array). -/
def getIndentLoop (m : List (String × String)) :
    List String → Nat → Nat → List String
  | _, _, 0 => []
  | paths, i, r + 1 =>
    match paths.getLast? with
    | none => []
    | some name =>
      let parentPath := String.intercalate "/" paths.dropLast
      let lastName := (mapGet m parentPath).getD ""
      let isLast := lastName == name
      let g :=
        if i == 0 then (if isLast then "└ " else "├ ")
        else (if isLast then "  " else "│ ")
      g :: getIndentLoop m paths.dropLast (i + 1) r

/-- `getIndent`: the loop `unshift`s each glyph, so the joined result is the
iteration-order list reversed. -/
def getIndent (m : List (String × String)) (path : String) (level : Nat) : String :=
  String.join (getIndentLoop m (jsSplit path '/') 0 level).reverse

/-- The accumulator loop of `getGitStatus` over the entries of
`gitFilenames` (keys are unique, so iterating `keys()` and re-reading each
key visits exactly the entry pairs). -/
def gitMinFold (fullPath : String) :
    List (String × String) → Option String → Option String
  | [], st => st
  | (k, v) :: rest, st =>
    if jsStartsWith k fullPath then
      match st with
      | none => gitMinFold fullPath rest (some v)
      | some a => gitMinFold fullPath rest (if jsStrLt v a then some v else some a)
    else gitMinFold fullPath rest st

/-- `getGitStatus`. -/
def getGitStatus (git : List (String × String)) (fullPath : String) :
    Option GitStatus :=
  let status := (mapGet git fullPath).getD ""
  if status == "" then
    match gitMinFold fullPath git none with
    | none => none
    | some st => mapGet gitStatuses st
  else mapGet gitStatuses status

/-- `Math.max(...levels)` of `setLastFilenameInDir`; only reached on a batch
of two or more items, where it agrees with the fold from `0` on `Nat`. -/
def maxLevel (items : List DduItem) : Nat :=
  (items.map (fun it => it.level)).foldl Nat.max 0

/-- The comparator chosen from `columnParams.sort`. -/
def chooseSortFunc (sort : String) : DduItem → DduItem → Int :=
  let sortMethod := jsToLower sort
  if sortMethod == "extension" then sortByExtension
  else if sortMethod == "size" then sortBySize
  else if sortMethod == "time" then sortByTime
  else if sortMethod == "filename" then sortByFilename
  else sortByNone

/-- `setLastFilenameInDir`: on a batch of two or more items, filter the
items of the deepest level into a fresh array (a new store slot), sort that
fresh array in place (`Array.prototype.sort` is called on the `filter`
result, never on the host's array), optionally regroup trees first (again
fresh arrays: the regrouped array is appended as a new slot), and record the
parent-path to name binding of the last sorted item in `lastFilenameInDir`.
Returns the updated map and store. -/
def setLastFilenameInDir (m : List (String × String)) (store : Store)
    (ref : Nat) (p : Params) : List (String × String) × Store :=
  let items := storeGet store ref
  if items.length ≤ 1 then (m, store)
  else
    let level := maxLevel items
    let levelItems := items.filter (fun it => it.level == level)
    let sorted₀ := jsSort (chooseSortFunc p.sort) levelItems
    let store₁ := store ++ [sorted₀]
    let sorted :=
      if p.sortTreesFirst then
        sorted₀.filter (fun it => it.isTree.getD false) ++
          sorted₀.filter (fun it => !(it.isTree.getD false))
      else sorted₀
    let store₂ := if p.sortTreesFirst then store₁ ++ [sorted] else store₁
    match sorted.getLast? with
    | none => (m, store₂)
    | some item =>
      let path := item.treePath.getD ""
      let paths := jsSplit path '/'
      let name := (paths.getLast?).getD ""
      let parentPath := String.intercalate "/" paths.dropLast
      (mapSet m parentPath name, store₂)

/-- `initGit`: resolve and memoize the git root once. -/
def initGit (env : Env) (st : ColumnState) : ColumnState :=
  match st.gitRoot with
  | some _ => st
  | none => { st with gitRoot := some (jsTrim env.gitRootOutput) }

/-- `checkGitDiff`: hash the trimmed `git status --porcelain -u` output and
rebuild `gitFilenames` only when the hash changed. -/
def checkGitDiff (env : Env) (st : ColumnState) : ColumnState :=
  match st.gitRoot with
  | none => st
  | some r =>
    if r == "" then st
    else
      let gitStatusString := jsTrimEnd env.gitStatusOutput
      let hash := env.md5 gitStatusString
      if hash == st.gitStatusHash then st
      else
        { st with
          gitStatusHash := hash,
          gitFilenames :=
            (jsSplit gitStatusString (Char.ofNat 10)).foldl
              (fun acc gitStatus =>
                mapSet acc (r ++ "/" ++ jsDrop gitStatus 3)
                  (jsTrim (jsTake gitStatus 3)))
              [] }

/-- The width the `getLength` lambda computes for one item:
`(item.__level * 3) + 3 + 1 + path.length`. -/
def itemLength (item : DduItem) : Nat :=
  let isDirectory := item.isTree.getD false
  let path := jsBasename (item.action.path.getD item.word) ++
    (if isDirectory then "/" else "")
  item.level * 3 + 3 + 1 + path.length

/-- `getLength`: refresh the sibling cache and the git caches, then return
the maximum item width. The result triple is the returned length, the new
column state, and the store after the call. -/
def getLength (env : Env) (st : ColumnState) (store : Store) (ref : Nat)
    (p : Params) : Option Nat × ColumnState × Store :=
  let ms := setLastFilenameInDir st.lastFilenameInDir store ref p
  let st' := checkGitDiff env (initGit env { st with lastFilenameInDir := ms.1 })
  let items := storeGet ms.2 ref
  (jsMathMax (items.map itemLength), st', ms.2)

/-- The display path of an item in `getText`: basename, a trailing `/` for
tree items, and the resolved target of a (truthy-path) link. -/
def displayPath (env : Env) (item : DduItem) : String :=
  let isDirectory := item.isTree.getD false
  let base := jsBasename (item.action.path.getD item.word) ++
    (if isDirectory then "/" else "")
  if (item.action.isLink.getD false) && jsTruthyStr item.action.path then
    base ++ " -> " ++ env.realPath (item.action.path.getD "")
  else base

/-- The unpadded text `indent + icon + " " + path` built by `getText`. -/
def renderedText (env : Env) (st : ColumnState) (item : DduItem) : String :=
  getIndent st.lastFilenameInDir (item.action.path.getD "") item.level ++
    (getIcon (displayPath env item) item.expanded (item.isTree.getD false)
      (item.action.isLink.getD false)).icon ++
    " " ++ displayPath env item

/-- `getText`: build indent, icon and path, push the icon highlight and,
when a git status applies at `fullPath`, the name highlight, then pad the
text to the column width. A batch whose text exceeds the column throws in
`" ".repeat` (negative count), modelled as `none`. -/
def getText (env : Env) (st : ColumnState) (item : DduItem)
    (startCol endCol : Int) : Option GetTextResult :=
  let isDirectory := item.isTree.getD false
  let isLink := item.action.isLink.getD false
  let path := displayPath env item
  let indent := getIndent st.lastFilenameInDir (item.action.path.getD "") item.level
  let indentBytesLength := indent.utf8ByteSize
  let iconData := getIcon path item.expanded isDirectory isLink
  let iconBytesLength := iconData.icon.utf8ByteSize
  let hl₁ : ItemHighlight :=
    { name := "column-filename-icon",
      hl_group := getHighlightName iconData.color,
      col := startCol + indentBytesLength,
      width := iconBytesLength }
  let fullPath := (item.action.path.getD "") ++ (if isDirectory then "/" else "")
  let highlights :=
    match getGitStatus st.gitFilenames fullPath with
    | some gitStatus =>
      [hl₁,
       { name := "column-filename-name",
         hl_group := getHighlightName gitStatus.color,
         col := startCol + indentBytesLength + iconBytesLength + 1,
         width := path.utf8ByteSize }]
    | none => [hl₁]
  let text := indent ++ iconData.icon ++ " " ++ path
  let width := env.strwidth text
  (jsRepeat " " (endCol - startCol - width)).map
    (fun padding => { text := text ++ padding, highlights := highlights })

/-! ### Helper lemmas -/

theorem mapSet_preserves_keys {α : Type} (m : List (String × α)) (k' : String)
    (v : α) (k : String) (h : (mapGet m k).isSome = true) :
    (mapGet (mapSet m k' v) k).isSome = true := by
  induction m with
  | nil => simp [mapGet] at h
  | cons kv rest ih =>
    obtain ⟨k₀, v₀⟩ := kv
    by_cases hk : k₀ = k
    · subst hk
      by_cases h0 : k₀ = k'
      · subst h0
        simp [mapSet, mapGet, List.find?]
      · have hb0 : (k₀ == k') = false := by
          simpa using h0
        simp [mapSet, hb0, mapGet, List.find?]
    · have hbk : (k₀ == k) = false := by
        simpa using hk
      by_cases h0 : k₀ = k'
      · subst h0
        simp only [mapSet, beq_self_eq_true, if_true]
        simp only [mapGet, List.find?, hbk] at h ⊢
        exact h
      · have hb0 : (k₀ == k') = false := by
          simpa using h0
        simp only [mapSet, hb0, Bool.false_eq_true, if_false]
        simp only [mapGet, List.find?, hbk] at h ⊢
        exact ih h

theorem storeGet_append (s t : Store) (r : Nat) (h : r < s.length) :
    storeGet (s ++ t) r = storeGet s r := by
  simp [storeGet, List.getElem?_append_left h]

theorem setLastFilenameInDir_snd (m : List (String × String)) (store : Store)
    (ref : Nat) (p : Params) :
    ∃ t, (setLastFilenameInDir m store ref p).2 = store ++ t := by
  unfold setLastFilenameInDir
  by_cases h : (storeGet store ref).length ≤ 1
  · exact ⟨[], by simp [h]⟩
  · simp only [h, if_false]
    by_cases hp : p.sortTreesFirst <;>
      simp only [hp, if_true, if_false] <;>
      rcases hl : List.getLast? _ with _ | it <;>
      simp [hl, List.append_assoc]

theorem storeGet_setLastFilenameInDir (m : List (String × String))
    (store : Store) (ref : Nat) (p : Params) :
    storeGet (setLastFilenameInDir m store ref p).2 ref = storeGet store ref := by
  by_cases h : ref < store.length
  · obtain ⟨t, ht⟩ := setLastFilenameInDir_snd m store ref p
    rw [ht, storeGet_append _ _ _ h]
  · have hnone : storeGet store ref = [] := by
      simp [storeGet, List.getElem?_eq_none (Nat.le_of_not_lt h)]
    unfold setLastFilenameInDir
    rw [hnone]
    simp
    exact hnone

theorem setLastFilenameInDir_fst (m : List (String × String)) (store : Store)
    (ref : Nat) (p : Params) :
    (setLastFilenameInDir m store ref p).1 = m ∨
      ∃ k v, (setLastFilenameInDir m store ref p).1 = mapSet m k v := by
  unfold setLastFilenameInDir
  by_cases h : (storeGet store ref).length ≤ 1
  · left; simp [h]
  · simp only [h, if_false]
    by_cases hp : p.sortTreesFirst <;>
      simp only [hp, if_true, if_false] <;>
      rcases hl : List.getLast? _ with _ | it <;>
      simp [hl]

/-! ### Concrete fixtures used by witnesses and counterexamples -/

/-- A plain level-0 item whose tree path is `x/a`. -/
def itemA : DduItem :=
  { word := "a",
    action := { isDirectory := none, isLink := none, path := some "x/a" },
    isTree := none, treePath := some "x/a", level := 0, expanded := false,
    status := none }

/-- A plain level-0 item whose tree path is `x/b`. -/
def itemB : DduItem :=
  { word := "b",
    action := { isDirectory := none, isLink := none, path := some "x/b" },
    isTree := none, treePath := some "x/b", level := 0, expanded := false,
    status := none }

/-- Default column parameters (`sort: 'none'`, trees not grouped first). -/
def params₀ : Params := { sort := "none", sortTreesFirst := false }

/-- A concrete environment: code-point `strwidth`, identity `realPath` and
hash, a git root and one modified file in the git status output. -/
def env₀ : Env :=
  { strwidth := fun s => (s.length : Int),
    realPath := fun s => s,
    md5 := fun s => s,
    gitRootOutput := "/repo\n",
    gitStatusOutput := "M  a.txt" }

/-- The initial column state (fresh instance, before any render). -/
def st₀ : ColumnState :=
  { lastFilenameInDir := [], gitRoot := none, gitFilenames := [],
    gitStatusHash := "" }

/-- A plain file item `/repo/a.txt` at level 0. -/
def item₀ : DduItem :=
  { word := "a.txt",
    action := { isDirectory := none, isLink := none, path := some "/repo/a.txt" },
    isTree := none, treePath := none, level := 0, expanded := false,
    status := none }

/-! ### C1 -/

/-- **C1** counterexample. The claim says `setLastFilenameInDir` leaves only
entries recomputed from the current batch, no entry from an earlier batch
surviving. Concretely: start from a cache holding `("old", "stale")`, run
`setLastFilenameInDir` on a two-item batch (`x/a`, `x/b`) that never
mentions `old` — the stale binding is still there afterwards, because the
method only `set`s one entry and never clears the map. -/
theorem stale_sibling_entry_survives :
    mapGet (setLastFilenameInDir [("old", "stale")] [[itemA, itemB]] 0
      params₀).1 "old" = some "stale" ∧
    (∀ it ∈ [itemA, itemB],
      jsStartsWith (it.treePath.getD "") "old" = false) := by
  decide

/-- **C1** (amended): `setLastFilenameInDir` never removes cache entries.
On a batch of at most one item it leaves the cache unchanged, and otherwise
it only adds or overwrites the single entry computed from the deepest-level
items of the batch, so every key present before the call is still present
after it — entries from earlier batches survive. -/
theorem setLastFilenameInDir_preserves_earlier_entries
    (m : List (String × String)) (store : Store) (ref : Nat) (p : Params) :
    ((storeGet store ref).length ≤ 1 →
      (setLastFilenameInDir m store ref p).1 = m) ∧
    (∀ k, (mapGet m k).isSome = true →
      (mapGet (setLastFilenameInDir m store ref p).1 k).isSome = true) := by
  constructor
  · intro h
    unfold setLastFilenameInDir
    simp [h]
  · intro k hk
    rcases setLastFilenameInDir_fst m store ref p with h | ⟨k', v, h⟩
    · rw [h]; exact hk
    · rw [h]; exact mapSet_preserves_keys m k' v k hk

/-- Witness for C1's amended theorem at the concrete counterexample state. -/
theorem setLastFilenameInDir_preserves_earlier_entries_witness :
    ((storeGet [[itemA, itemB]] 0).length ≤ 1 →
      (setLastFilenameInDir [("old", "stale")] [[itemA, itemB]] 0
        params₀).1 = [("old", "stale")]) ∧
    (∀ k, (mapGet [("old", "stale")] k).isSome = true →
      (mapGet (setLastFilenameInDir [("old", "stale")] [[itemA, itemB]] 0
        params₀).1 k).isSome = true) :=
  setLastFilenameInDir_preserves_earlier_entries
    [("old", "stale")] [[itemA, itemB]] 0 params₀

/-! ### C2 -/

/-- The branch glyph the claim prescribes for nesting step `i` of an item
whose path components are `cs` (step `0` is the deepest level, the item
itself): look up the cached last filename of the ancestor's parent
directory, compare it with the ancestor's name, and pick `└ `/`├ ` at the
deepest level and `  `/`│ ` at the shallower ones. -/
def indentGlyph (m : List (String × String)) (cs : List String) (i : Nat) :
    String :=
  let name := (cs[cs.length - 1 - i]?).getD ""
  let parentPath := String.intercalate "/" (cs.take (cs.length - 1 - i))
  let lastName := (mapGet m parentPath).getD ""
  let isLast := lastName == name
  if i == 0 then (if isLast then "└ " else "├ ")
  else (if isLast then "  " else "│ ")

/-- The indent the claim describes: the glyphs of steps `level-1 … 0`
concatenated from shallowest ancestor to deepest level. -/
def getIndentSpec (m : List (String × String)) (path : String)
    (level : Nat) : String :=
  String.join (((List.range level).reverse).map
    (indentGlyph m (jsSplit path '/')))

theorem getIndentLoop_eq (m : List (String × String)) (cs : List String) :
    ∀ (r i : Nat), i + r ≤ cs.length →
      getIndentLoop m (cs.take (cs.length - i)) i r =
        (List.range' i r).map (indentGlyph m cs) := by
  intro r
  induction r with
  | zero => intro i _; simp [getIndentLoop]
  | succ r ih =>
    intro i hir
    have hin : i < cs.length := by omega
    have hlen : (cs.take (cs.length - i)).length = cs.length - i := by
      rw [List.length_take]; omega
    have hidx : cs.length - i - 1 = cs.length - 1 - i := by omega
    obtain ⟨x, hx⟩ : ∃ x, cs[cs.length - 1 - i]? = some x := by
      rcases hx : cs[cs.length - 1 - i]? with _ | x
      · exfalso
        have := List.getElem?_eq_none_iff.mp hx
        omega
      · exact ⟨x, rfl⟩
    have hlast : (cs.take (cs.length - i)).getLast? = some x := by
      rw [List.getLast?_eq_getElem?, hlen, List.getElem?_take, if_pos (by omega),
        hidx, hx]
    have hdrop : (cs.take (cs.length - i)).dropLast =
        cs.take (cs.length - 1 - i) := by
      rw [List.dropLast_eq_take, List.length_take, List.take_take]
      congr 1
      omega
    have e : cs.length - (i + 1) = cs.length - 1 - i := by omega
    have ihl := ih (i + 1) (by omega)
    rw [e] at ihl
    simp only [getIndentLoop, hlast, hdrop]
    rw [List.range'_succ, List.map_cons, ihl]
    congr 1
    simp only [indentGlyph, hx, Option.getD_some]

/-- **C2**: for every cache, path and level with `1 ≤ level` and at least
`level` path components, `getIndent` returns exactly the glyph string the
claim describes: `└ `/`├ ` at the deepest level by comparing the item's
name with the cached last filename of its parent directory, `  `/`│ ` at
each shallower ancestor level, concatenated shallowest to deepest. -/
theorem getIndent_glyphs_spec (m : List (String × String)) (path : String)
    (level : Nat) (h1 : 1 ≤ level)
    (h2 : level ≤ (jsSplit path '/').length) :
    getIndent m path level = getIndentSpec m path level := by
  unfold getIndent getIndentSpec
  have h0 := getIndentLoop_eq m (jsSplit path '/') level 0 (by omega)
  rw [Nat.sub_zero, List.take_length] at h0
  rw [h0, List.range_eq_range', List.map_reverse]

/-- Witness for C2 at a two-level item `a/b` with a populated cache. -/
theorem getIndent_glyphs_spec_witness :
    1 ≤ 2 ∧ 2 ≤ (jsSplit "a/b" '/').length ∧
    getIndent [("a", "c"), ("", "a")] "a/b" 2 =
      getIndentSpec [("a", "c"), ("", "a")] "a/b" 2 :=
  ⟨by decide, by decide,
    getIndent_glyphs_spec [("a", "c"), ("", "a")] "a/b" 2 (by decide)
      (by decide)⟩

/-! ### C3 -/

/-- The fresh instance state after the git root has been resolved. -/
def stGit : ColumnState := { st₀ with gitRoot := some "/repo" }

/-- **C3**: with a usable git root, `checkGitDiff` leaves the state (in
particular `gitFilenames`) unchanged when the hash of the trimmed
`git status --porcelain -u` output equals the stored hash, and otherwise
replaces `gitFilenames` by a fresh map built from the empty map that sends
`gitRoot ++ "/" ++ name` of each output line (`name` is the line from
code-point 3 on) to the line's trimmed first-three-code-point status. -/
theorem checkGitDiff_rebuild_spec (env : Env) (st : ColumnState) (r : String)
    (hr : st.gitRoot = some r) (hne : r ≠ "") :
    (env.md5 (jsTrimEnd env.gitStatusOutput) = st.gitStatusHash →
      checkGitDiff env st = st) ∧
    (env.md5 (jsTrimEnd env.gitStatusOutput) ≠ st.gitStatusHash →
      (checkGitDiff env st).gitFilenames =
        (jsSplit (jsTrimEnd env.gitStatusOutput) (Char.ofNat 10)).foldl
          (fun acc line =>
            mapSet acc (r ++ "/" ++ jsDrop line 3) (jsTrim (jsTake line 3)))
          []) := by
  have hb : (r == "") = false := by simpa using hne
  constructor
  · intro h
    have hh : (env.md5 (jsTrimEnd env.gitStatusOutput) ==
        st.gitStatusHash) = true := by simpa using h
    unfold checkGitDiff
    rw [hr]
    simp [hb, hh]
  · intro h
    have hh : (env.md5 (jsTrimEnd env.gitStatusOutput) ==
        st.gitStatusHash) = false := by simpa using h
    unfold checkGitDiff
    rw [hr]
    simp [hb, hh]

/-- Witness for C3: concrete environment with one modified file; the
stored hash is stale, so the map is rebuilt. -/
theorem checkGitDiff_rebuild_spec_witness :
    (env₀.md5 (jsTrimEnd env₀.gitStatusOutput) = stGit.gitStatusHash →
      checkGitDiff env₀ stGit = stGit) ∧
    (env₀.md5 (jsTrimEnd env₀.gitStatusOutput) ≠ stGit.gitStatusHash →
      (checkGitDiff env₀ stGit).gitFilenames =
        (jsSplit (jsTrimEnd env₀.gitStatusOutput) (Char.ofNat 10)).foldl
          (fun acc line =>
            mapSet acc ("/repo" ++ "/" ++ jsDrop line 3)
              (jsTrim (jsTake line 3)))
          []) :=
  checkGitDiff_rebuild_spec env₀ stGit "/repo" rfl (by decide)

/-! ### C7 -/

/-- **C7**: every optional icon lookup defaults to the default file icon.
For a plain file (not expanded, not a directory, not a link) whose
extension is absent from `extensionIcons`, `getIcon` returns the default
file icon; and in each special case (expanded, directory, directory link,
link), a special-icon table missing the corresponding entry likewise
yields the default file icon. -/
theorem getIcon_missing_entries_default :
    (∀ fileName,
      mapGet extensionIcons ((jsExtname fileName).drop 1) = none →
      getIcon fileName false false false = defaultFileIcon) ∧
    (∀ special fileName d l,
      mapGet special "directory_expanded" = none →
      getIconGen special extensionIcons fileName true d l = defaultFileIcon) ∧
    (∀ special fileName,
      mapGet special "directory" = none →
      getIconGen special extensionIcons fileName false true false =
        defaultFileIcon) ∧
    (∀ special fileName,
      mapGet special "directory_link" = none →
      getIconGen special extensionIcons fileName false true true =
        defaultFileIcon) ∧
    (∀ special fileName,
      mapGet special "link" = none →
      getIconGen special extensionIcons fileName false false true =
        defaultFileIcon) := by
  refine ⟨?_, ?_, ?_, ?_, ?_⟩ <;> intros <;> simp_all [getIcon, getIconGen]

/-- Witness for C7: `.zzz` has no entry, so the default file icon is used. -/
theorem getIcon_missing_entries_default_witness :
    mapGet extensionIcons ((jsExtname "file.zzz").drop 1) = none ∧
    getIcon "file.zzz" false false false = defaultFileIcon :=
  ⟨by decide, getIcon_missing_entries_default.1 "file.zzz" (by decide)⟩

/-! ### C8 -/

theorem jsMathMax_eq_max? (l : List Nat) : jsMathMax l = l.max? := by
  cases l <;> rfl

/-- **C8**: the length returned by `getLength` is the maximum over the
batch items of `(item.__level * 3) + 3 + 1 +` the length of the basename
of the item's path (its `word` when the action has no path), with a
trailing `/` appended for tree items (`none` models the `-Infinity` of an
empty batch). -/
theorem getLength_max_width (env : Env) (st : ColumnState) (store : Store)
    (ref : Nat) (p : Params) :
    (getLength env st store ref p).1 =
      ((storeGet store ref).map (fun item =>
        item.level * 3 + 3 + 1 +
          (jsBasename (item.action.path.getD item.word) ++
            (if item.isTree.getD false then "/" else "")).length)).max? := by
  simp only [getLength]
  rw [storeGet_setLastFilenameInDir, jsMathMax_eq_max?]
  rfl

/-! ### C4 and C10 -/

theorem jsRepeatAux_space (k : Nat) :
    jsRepeatAux " " k = String.mk (List.replicate k ' ') := by
  induction k with
  | zero => rfl
  | succ k ih => rw [jsRepeatAux, ih]; rfl

/-- **C4**: when the rendered text fits the column
(`strwidth(indent + icon + " " + path) ≤ endCol - startCol`), `getText`
succeeds and returns exactly that text followed by
`endCol - startCol - width` spaces, together with the icon highlight span
and, when a git status applies to the item's full path, the name
highlight span. -/
theorem getText_padded_output (env : Env) (st : ColumnState) (item : DduItem)
    (startCol endCol : Int)
    (h : env.strwidth (renderedText env st item) ≤ endCol - startCol) :
    getText env st item startCol endCol = some
      { text := renderedText env st item ++
          String.mk (List.replicate
            (endCol - startCol -
              env.strwidth (renderedText env st item)).toNat ' '),
        highlights :=
          { name := "column-filename-icon",
            hl_group := getHighlightName (getIcon (displayPath env item)
              item.expanded (item.isTree.getD false)
              (item.action.isLink.getD false)).color,
            col := startCol + (getIndent st.lastFilenameInDir
              (item.action.path.getD "") item.level).utf8ByteSize,
            width := (getIcon (displayPath env item) item.expanded
              (item.isTree.getD false)
              (item.action.isLink.getD false)).icon.utf8ByteSize } ::
          (match getGitStatus st.gitFilenames ((item.action.path.getD "") ++
              (if item.isTree.getD false then "/" else "")) with
            | some gitStatus =>
              [{ name := "column-filename-name",
                 hl_group := getHighlightName gitStatus.color,
                 col := startCol + (getIndent st.lastFilenameInDir
                   (item.action.path.getD "") item.level).utf8ByteSize +
                   (getIcon (displayPath env item) item.expanded
                     (item.isTree.getD false)
                     (item.action.isLink.getD false)).icon.utf8ByteSize + 1,
                 width := (displayPath env item).utf8ByteSize }]
            | none => []) } := by
  have h' : ¬ (endCol - startCol -
      env.strwidth (getIndent st.lastFilenameInDir
        (item.action.path.getD "") item.level ++
        (getIcon (displayPath env item) item.expanded
          (item.isTree.getD false) (item.action.isLink.getD false)).icon ++
        " " ++ displayPath env item) < 0) := by
    unfold renderedText at h
    omega
  unfold renderedText
  simp only [getText, jsRepeat, h', if_false, ite_false, jsRepeatAux_space]
  cases hg : getGitStatus st.gitFilenames
      (item.action.path.getD "" ++
        if item.isTree.getD false then "/" else "") <;>
    simp [hg]

/-- Witness for C4: a 20-column render of `/repo/a.txt` from a fresh
state. -/
theorem getText_padded_output_witness :
    env₀.strwidth (renderedText env₀ st₀ item₀) ≤ (20 : Int) - 0 ∧
    getText env₀ st₀ item₀ 0 20 = some
      { text := renderedText env₀ st₀ item₀ ++
          String.mk (List.replicate
            ((20 : Int) - 0 -
              env₀.strwidth (renderedText env₀ st₀ item₀)).toNat ' '),
        highlights :=
          { name := "column-filename-icon",
            hl_group := getHighlightName (getIcon (displayPath env₀ item₀)
              item₀.expanded (item₀.isTree.getD false)
              (item₀.action.isLink.getD false)).color,
            col := (0 : Int) + (getIndent st₀.lastFilenameInDir
              (item₀.action.path.getD "") item₀.level).utf8ByteSize,
            width := (getIcon (displayPath env₀ item₀) item₀.expanded
              (item₀.isTree.getD false)
              (item₀.action.isLink.getD false)).icon.utf8ByteSize } ::
          (match getGitStatus st₀.gitFilenames ((item₀.action.path.getD "") ++
              (if item₀.isTree.getD false then "/" else "")) with
            | some gitStatus =>
              [{ name := "column-filename-name",
                 hl_group := getHighlightName gitStatus.color,
                 col := (0 : Int) + (getIndent st₀.lastFilenameInDir
                   (item₀.action.path.getD "") item₀.level).utf8ByteSize +
                   (getIcon (displayPath env₀ item₀) item₀.expanded
                     (item₀.isTree.getD false)
                     (item₀.action.isLink.getD false)).icon.utf8ByteSize + 1,
                 width := (displayPath env₀ item₀).utf8ByteSize }]
            | none => []) } :=
  ⟨by decide, getText_padded_output env₀ st₀ item₀ 0 20 (by decide)⟩

/-- **C10**: when the rendered text is wider than the column, the
space-padding repeat count `endCol - startCol - width` is negative, and
`getText` fails (`" ".repeat` throws a `RangeError`) instead of returning
a result. -/
theorem getText_overflow_fails (env : Env) (st : ColumnState) (item : DduItem)
    (startCol endCol : Int)
    (h : endCol - startCol < env.strwidth (renderedText env st item)) :
    getText env st item startCol endCol = none := by
  have h' : endCol - startCol -
      env.strwidth (getIndent st.lastFilenameInDir
        (item.action.path.getD "") item.level ++
        (getIcon (displayPath env item) item.expanded
          (item.isTree.getD false) (item.action.isLink.getD false)).icon ++
        " " ++ displayPath env item) < 0 := by
    unfold renderedText at h
    omega
  simp only [getText, jsRepeat, h', if_true, ite_true]
  rfl

/-- Witness for C10: a 3-column render of `/repo/a.txt` overflows. -/
theorem getText_overflow_fails_witness :
    (3 : Int) - 0 < env₀.strwidth (renderedText env₀ st₀ item₀) ∧
    getText env₀ st₀ item₀ 0 3 = none :=
  ⟨by decide, getText_overflow_fails env₀ st₀ item₀ 0 3 (by decide)⟩

/-! ### C5 -/

/-- **C5**: `getText` is deterministic. Two items agreeing on every
attribute the column reads (action path, word, level, expanded, tree flag,
link flag, directory flag) produce, under the same cache state, the same
environment and the same column bounds, the same text and the same
highlight list — `getText` reads nothing else (in particular neither
`treePath` nor `status`). -/
theorem getText_deterministic (env : Env) (st : ColumnState)
    (item₁ item₂ : DduItem) (startCol endCol : Int)
    (hp : item₁.action.path = item₂.action.path)
    (hw : item₁.word = item₂.word)
    (hl : item₁.level = item₂.level)
    (he : item₁.expanded = item₂.expanded)
    (ht : item₁.isTree = item₂.isTree)
    (hlk : item₁.action.isLink = item₂.action.isLink)
    (hd : item₁.action.isDirectory = item₂.action.isDirectory) :
    getText env st item₁ startCol endCol =
      getText env st item₂ startCol endCol := by
  obtain ⟨w₁, a₁, t₁, tp₁, l₁, e₁, s₁⟩ := item₁
  obtain ⟨w₂, a₂, t₂, tp₂, l₂, e₂, s₂⟩ := item₂
  obtain ⟨d₁, k₁, p₁⟩ := a₁
  obtain ⟨d₂, k₂, p₂⟩ := a₂
  dsimp only at hp hw hl he ht hlk hd
  subst hp hw hl he ht hlk hd
  rfl

/-- Witness for C5 at a concrete item, bounds and state. -/
theorem getText_deterministic_witness :
    getText env₀ st₀ item₀ 0 20 = getText env₀ st₀ item₀ 0 20 :=
  getText_deterministic env₀ st₀ item₀ item₀ 0 20 rfl rfl rfl rfl rfl rfl rfl

/-! ### C6 -/

/-- **C6**: the entry points never mutate the host's `items` array or its
items. `getLength` (through `setLastFilenameInDir`, the only code that
touches the array) always leaves the host's array slot — order and every
item attribute — exactly as it was: `filter` allocates fresh arrays and
the in-place `sort` runs only on such a fresh allocation. `getText`
receives a single item and performs no writes at all, so it has no access
path to the host's array. -/
theorem entry_points_do_not_mutate_items (env : Env) (st : ColumnState)
    (store : Store) (ref : Nat) (p : Params) :
    storeGet (getLength env st store ref p).2.2 ref = storeGet store ref := by
  simp only [getLength]
  exact storeGet_setLastFilenameInDir st.lastFilenameInDir store ref p

/-! ### C9 -/

/-- The status codes of the `gitFilenames` entries whose key starts with
`fp` — the candidates of `getGitStatus`'s fallback scan. -/
def gitCodes (fp : String) (l : List (String × String)) : List String :=
  (l.filter (fun kv => jsStartsWith kv.1 fp)).map Prod.snd

theorem charsLt_irrefl (l : List Char) : charsLt l l = false := by
  induction l with
  | nil => rfl
  | cons c cs ih => simp [charsLt, lt_irrefl, ih]

theorem charsLt_conn (l₁ : List Char) :
    ∀ l₂, charsLt l₁ l₂ = false → charsLt l₂ l₁ = false → l₁ = l₂ := by
  induction l₁ with
  | nil =>
    intro l₂ h12 _
    cases l₂ with
    | nil => rfl
    | cons d ds => simp [charsLt] at h12
  | cons c cs ih =>
    intro l₂ h12 h21
    cases l₂ with
    | nil => simp [charsLt] at h21
    | cons d ds =>
      by_cases hcd : c < d
      · simp [charsLt, hcd] at h12
      · by_cases hdc : d < c
        · simp [charsLt, hdc] at h21
        · have hce : c = d := le_antisymm (not_lt.mp hdc) (not_lt.mp hcd)
          subst hce
          simp only [charsLt, if_neg hcd] at h12 h21
          rw [ih ds h12 h21]

theorem charsLt_negtrans (l₁ : List Char) :
    ∀ l₂ l₃, charsLt l₂ l₁ = false → charsLt l₃ l₂ = false →
      charsLt l₃ l₁ = false := by
  induction l₁ with
  | nil =>
    intro l₂ l₃ _ _
    cases l₃ <;> rfl
  | cons a as ih =>
    intro l₂ l₃ h1 h2
    cases l₂ with
    | nil => simp [charsLt] at h1
    | cons b bs =>
      cases l₃ with
      | nil => simp [charsLt] at h2
      | cons c cs =>
        have hba : ¬ b < a := by
          intro hlt
          simp [charsLt, hlt] at h1
        have hcb : ¬ c < b := by
          intro hlt
          simp [charsLt, hlt] at h2
        have hca : ¬ c < a :=
          fun hlt => hcb (lt_of_lt_of_le hlt (not_lt.mp hba))
        by_cases hac : a < c
        · simp [charsLt, hca, hac]
        · have hea : a = c :=
            le_antisymm (le_trans (not_lt.mp hba) (not_lt.mp hcb))
              (not_lt.mp hac)
          subst hea
          have heb : a = b :=
            le_antisymm (not_lt.mp hba) (not_lt.mp hcb)
          subst heb
          simp only [charsLt, if_neg hca] at h1 h2 ⊢
          exact ih bs cs h1 h2

theorem charsLt_asymm (l₁ : List Char) :
    ∀ l₂, charsLt l₁ l₂ = true → charsLt l₂ l₁ = false := by
  induction l₁ with
  | nil =>
    intro l₂ _
    cases l₂ <;> rfl
  | cons c cs ih =>
    intro l₂ h
    cases l₂ with
    | nil => simp [charsLt] at h
    | cons d ds =>
      by_cases hcd : c < d
      · have hdc : ¬ d < c := lt_asymm hcd
        simp [charsLt, hdc, hcd]
      · by_cases hdc : d < c
        · simp [charsLt, hcd, hdc] at h
        · simp only [charsLt, if_neg hcd, if_neg hdc] at h
          simp only [charsLt, if_neg hdc, if_neg hcd]
          exact ih ds h

theorem jsStrLt_asymm (a b : String) (h : jsStrLt a b = true) :
    jsStrLt b a = false :=
  charsLt_asymm a.data b.data h

theorem jsStrLt_conn (a b : String) (hab : jsStrLt a b = false)
    (hba : jsStrLt b a = false) : a = b := by
  cases a with
  | mk da =>
    cases b with
    | mk db =>
      exact congrArg String.mk (charsLt_conn da db hab hba)

theorem jsStrLt_negtrans (a b c : String) (h1 : jsStrLt b a = false)
    (h2 : jsStrLt c b = false) : jsStrLt c a = false :=
  charsLt_negtrans a.data b.data c.data h1 h2

theorem gitMinFold_some (fp : String) :
    ∀ (l : List (String × String)) (a : String),
      ∃ b, gitMinFold fp l (some a) = some b ∧
        (b = a ∨ b ∈ gitCodes fp l) ∧ jsStrLt a b = false ∧
        ∀ c ∈ gitCodes fp l, jsStrLt c b = false := by
  intro l
  induction l with
  | nil =>
    intro a
    exact ⟨a, rfl, Or.inl rfl, by simp [jsStrLt, charsLt_irrefl],
      by simp [gitCodes]⟩
  | cons kv rest ih =>
    intro a
    obtain ⟨k, v⟩ := kv
    by_cases hs : jsStartsWith k fp
    · have hcodes : gitCodes fp ((k, v) :: rest) = v :: gitCodes fp rest := by
        simp [gitCodes, hs]
      by_cases hva : jsStrLt v a = true
      · obtain ⟨b, hb, hmem, hbv, hmin⟩ := ih v
        refine ⟨b, ?_, ?_, ?_, ?_⟩
        · simp [gitMinFold, hs, hva, hb]
        · right
          rw [hcodes]
          rcases hmem with hbveq | hmemr
          · rw [hbveq]; exact List.mem_cons_self _ _
          · exact List.mem_cons_of_mem _ hmemr
        · exact jsStrLt_negtrans b v a hbv (jsStrLt_asymm v a hva)
        · intro c hc
          rw [hcodes] at hc
          rcases List.mem_cons.mp hc with hcv | hcr
          · subst hcv; exact hbv
          · exact hmin c hcr
      · have hvf : jsStrLt v a = false := by simpa using hva
        obtain ⟨b, hb, hmem, hba, hmin⟩ := ih a
        refine ⟨b, ?_, ?_, hba, ?_⟩
        · simp [gitMinFold, hs, hvf, hb]
        · rcases hmem with hbeq | hmemr
          · exact Or.inl hbeq
          · right
            rw [hcodes]
            exact List.mem_cons_of_mem _ hmemr
        · intro c hc
          rw [hcodes] at hc
          rcases List.mem_cons.mp hc with hcv | hcr
          · rw [hcv]
            exact jsStrLt_negtrans b a v hba hvf
          · exact hmin c hcr
    · have hcodes : gitCodes fp ((k, v) :: rest) = gitCodes fp rest := by
        simp [gitCodes, hs]
      obtain ⟨b, hb, hmem, hba, hmin⟩ := ih a
      refine ⟨b, ?_, ?_, hba, ?_⟩
      · simpa [gitMinFold, hs] using hb
      · rw [hcodes]; exact hmem
      · rw [hcodes]; exact hmin

theorem gitMinFold_none (fp : String) (l : List (String × String)) :
    (gitCodes fp l = [] ∧ gitMinFold fp l none = none) ∨
    (∃ b, gitMinFold fp l none = some b ∧ b ∈ gitCodes fp l ∧
      ∀ c ∈ gitCodes fp l, jsStrLt c b = false) := by
  induction l with
  | nil => exact Or.inl ⟨rfl, rfl⟩
  | cons kv rest ih =>
    obtain ⟨k, v⟩ := kv
    by_cases hs : jsStartsWith k fp
    · have hcodes : gitCodes fp ((k, v) :: rest) = v :: gitCodes fp rest := by
        simp [gitCodes, hs]
      right
      obtain ⟨b, hb, hmem, hba, hmin⟩ := gitMinFold_some fp rest v
      refine ⟨b, ?_, ?_, ?_⟩
      · simpa [gitMinFold, hs] using hb
      · rw [hcodes]
        rcases hmem with hbv | hmemr
        · rw [hbv]; exact List.mem_cons_self _ _
        · exact List.mem_cons_of_mem _ hmemr
      · intro c hc
        rw [hcodes] at hc
        rcases List.mem_cons.mp hc with hcv | hcr
        · subst hcv; exact hba
        · exact hmin c hcr
    · have hcodes : gitCodes fp ((k, v) :: rest) = gitCodes fp rest := by
        simp [gitCodes, hs]
      rcases ih with ⟨hc, hn⟩ | ⟨b, hb, hmem, hmin⟩
      · exact Or.inl ⟨by rw [hcodes, hc], by simpa [gitMinFold, hs] using hn⟩
      · exact Or.inr ⟨b, by simpa [gitMinFold, hs] using hb,
          by rw [hcodes]; exact hmem, by rw [hcodes]; exact hmin⟩

/-- **C9**: when `fullPath` has no exact entry in the git status map,
`getGitStatus` scans the keys that start with `fullPath`: it returns the
status data of the lexicographically smallest status code among those
entries (`jsStrLt` is the JS string comparison; the hypothesis says `c`
is a candidate no candidate is smaller than), and `none` when no key
starts with `fullPath` or the selected code is absent from the status
table. -/
theorem getGitStatus_smallest_code (git : List (String × String))
    (fullPath : String) (hnone : mapGet git fullPath = none) :
    (gitCodes fullPath git = [] → getGitStatus git fullPath = none) ∧
    (∀ c, c ∈ gitCodes fullPath git →
      (∀ c', c' ∈ gitCodes fullPath git → jsStrLt c' c = false) →
      getGitStatus git fullPath = mapGet gitStatuses c) := by
  constructor
  · intro hempty
    rcases gitMinFold_none fullPath git with ⟨_, hn⟩ | ⟨b, _, hmem, _⟩
    · simp [getGitStatus, hnone, hn]
    · rw [hempty] at hmem
      cases hmem
  · intro c hc hmin
    rcases gitMinFold_none fullPath git with ⟨hcodes, _⟩ | ⟨b, hb, hmem, hbmin⟩
    · rw [hcodes] at hc
      cases hc
    · have hbc : b = c := jsStrLt_conn b c (hmin b hmem) (hbmin c hc)
      subst hbc
      simp [getGitStatus, hnone, hb]

/-- Witness for C9: two prefixed entries `M` and `A`; the smaller code `A`
is selected. -/
theorem getGitStatus_smallest_code_witness :
    mapGet [("/r/a.txt", "M"), ("/r/b.txt", "A")] "/r/" = none ∧
    "A" ∈ gitCodes "/r/" [("/r/a.txt", "M"), ("/r/b.txt", "A")] ∧
    getGitStatus [("/r/a.txt", "M"), ("/r/b.txt", "A")] "/r/" =
      mapGet gitStatuses "A" :=
  ⟨by decide, by decide,
    (getGitStatus_smallest_code [("/r/a.txt", "M"), ("/r/b.txt", "A")] "/r/"
      (by decide)).2 "A" (by decide) (by decide)⟩

end ExtraFilename
